import Mathlib

/-!
Shallow embedding of the Latte telemetry library (canonical revision):
ring buffer, per-thread scope stack, Start/Stop recorder, Pulse primitive,
calibration-key handling, the BUMED overhead estimator and the CleanData
outlier filter, together with theorems about them.
Machine integers (uint64) are modelled as Nat with explicit wraparound
where the source can overflow; doubles are modelled as rationals.
-/

namespace Latte

/-- constexpr size_t MAX_ACTIVE_SLOTS = 64 -/
def MAX_ACTIVE_SLOTS : Nat := 64

/-- constexpr size_t BUFFER_PWR = 16 -/
def BUFFER_PWR : Nat := 16

/-- constexpr size_t MAX_SAMPLES = 1 << BUFFER_PWR (= 65536) -/
def MAX_SAMPLES : Nat := 2 ^ BUFFER_PWR

/-- Modulus of the uint64 Cycles type. -/
def UINT64_MOD : Nat := 2 ^ 64

/-- Largest uint64 value, std::numeric_limits of uint64_t max. -/
def U64MAX : Nat := 2 ^ 64 - 1

/-- constexpr uint8_t CALIB_KEY_UNSET = 0xFF -/
def CALIB_KEY_UNSET : Nat := 0xFF

/-- constexpr uint8_t CALIB_KEY_MIXED = 0xFE -/
def CALIB_KEY_MIXED : Nat := 0xFE

/-- constexpr uint8_t CALIB_KEY_PULSE = 9 -/
def CALIB_KEY_PULSE : Nat := 9

/-- constexpr size_t CALIB_KEY_COUNT = 10 -/
def CALIB_KEY_COUNT : Nat := 10

/-- Internal::CalibKey: (start_mode < 3 and stop_mode < 3) ? start_mode*3+stop_mode : UNSET. -/
def CalibKey (start_mode stop_mode : Nat) : Nat :=
  if start_mode < 3 ∧ stop_mode < 3 then start_mode * 3 + stop_mode else CALIB_KEY_UNSET

/-- uint64 subtraction a - b with wraparound modulo 2^64. -/
def sub64 (a b : Nat) : Nat := (a + UINT64_MOD - b % UINT64_MOD) % UINT64_MOD

/-- struct RingBuffer: Cycles data[MAX_SAMPLES] (zero-initialized by the
map's value-initialization), size_t head = 0, uint8_t calib_key = 0xFF.
The array is a function; only indices below MAX_SAMPLES are ever written
or scanned. -/
structure RingBuffer where
  data : Nat → Nat
  head : Nat
  calib_key : Nat

/-- The zero-initialized ring buffer obtained from map value-initialization. -/
def RingBuffer.init : RingBuffer :=
  { data := fun _ => 0, head := 0, calib_key := CALIB_KEY_UNSET }

/-- RingBuffer::push(val, key): tag update (UNSET takes key, differing key
turns MIXED), write data[head], head = (head + 1) & BUFFER_MASK.
The source keeps head < MAX_SAMPLES via the mask, so indexing data at
head % MAX_SAMPLES matches data[head] on every reachable state, and the
bitmask with 2^16 - 1 is the mod. -/
def RingBuffer.push (rb : RingBuffer) (val key : Nat) : RingBuffer :=
  { data := Function.update rb.data (rb.head % MAX_SAMPLES) val
    head := (rb.head + 1) % MAX_SAMPLES
    calib_key :=
      if rb.calib_key = CALIB_KEY_UNSET then key
      else if rb.calib_key ≠ key then CALIB_KEY_MIXED
      else rb.calib_key }

/-- struct ThreadStorage: parallel scope-stack arrays, stack_ptr, and the
id-to-ring-buffer map. IDs (const char pointers) are modelled as Nat with
pointer equality. The map is modelled as a total function whose default
entry is the value-initialized buffer, matching operator[] insertion. -/
structure ThreadStorage where
  stack_ids : Nat → Nat
  stack_starts : Nat → Nat
  stack_modes : Nat → Nat
  stack_ptr : Nat
  history : Nat → RingBuffer

/-- A freshly created ThreadStorage. -/
def ThreadStorage.init : ThreadStorage :=
  { stack_ids := fun _ => 0
    stack_starts := fun _ => 0
    stack_modes := fun _ => 0
    stack_ptr := 0
    history := fun _ => RingBuffer.init }

/-- Recorder::Start with mode M at timestamp t: if stack_ptr < MAX_ACTIVE_SLOTS,
record (id, t, M) in the parallel arrays and increment, else silently drop. -/
def Recorder.start (M id t : Nat) (ts : ThreadStorage) : ThreadStorage :=
  if ts.stack_ptr < MAX_ACTIVE_SLOTS then
    { ts with
      stack_ids := Function.update ts.stack_ids ts.stack_ptr id
      stack_starts := Function.update ts.stack_starts ts.stack_ptr t
      stack_modes := Function.update ts.stack_modes ts.stack_ptr M
      stack_ptr := ts.stack_ptr + 1 }
  else ts

/-- Recorder::Stop with mode M at timestamp t: if stack_ptr > 0, pop the top
frame, compute delta = t - start (uint64 wraparound), and push it with key
CalibKey(start_mode, M) into the popped id's ring buffer; else no-op. -/
def Recorder.stop (M t : Nat) (ts : ThreadStorage) : ThreadStorage :=
  if 0 < ts.stack_ptr then
    { ts with
      stack_ptr := ts.stack_ptr - 1
      history := Function.update ts.history (ts.stack_ids (ts.stack_ptr - 1))
        ((ts.history (ts.stack_ids (ts.stack_ptr - 1))).push
          (sub64 t (ts.stack_starts (ts.stack_ptr - 1)))
          (CalibKey (ts.stack_modes (ts.stack_ptr - 1)) M)) }
  else ts

/-- N pushes into a fresh ring buffer, push k carrying value vals k and key keys k. -/
def pushN (vals keys : Nat → Nat) : Nat → RingBuffer
  | 0 => RingBuffer.init
  | n + 1 => (pushN vals keys n).push (vals n) (keys n)

/-- Number of non-zero slots of a ring buffer (valid samples), over the
array's MAX_SAMPLES slots. -/
def nonzeroCount (rb : RingBuffer) : Nat :=
  ((Finset.range MAX_SAMPLES).filter fun i => rb.data i ≠ 0).card

/-- N Start/Stop pairs for a single id with mode M on a fresh thread, pair k
starting at t0 k and stopping at t1 k. -/
def runPairs (id M : Nat) (t0 t1 : Nat → Nat) : Nat → ThreadStorage
  | 0 => ThreadStorage.init
  | n + 1 => Recorder.stop M (t1 n) (Recorder.start M id (t0 n) (runPairs id M t0 t1 n))

/-- A hot-path recorder call: Start or Stop. -/
inductive LOp where
  | start (id t M : Nat)
  | stop (t M : Nat)

/-- One recorder call applied to a thread storage. -/
def applyOp (ts : ThreadStorage) : LOp → ThreadStorage
  | .start id t M => Recorder.start M id t ts
  | .stop t M => Recorder.stop M t ts

/-- A sequence of recorder calls applied in order. -/
def applyOps (ts : ThreadStorage) (ops : List LOp) : ThreadStorage :=
  ops.foldl applyOp ts

/-- The static thread_local state of one LATTE_PULSE site: the cached buffer
pointer (acquired or still null), the last timestamp, and a counter of how
many Internal::GetBuffer lookups the site has performed. -/
structure PulseSite where
  acquired : Bool
  last : Nat
  lookups : Nat

/-- A pulse site before its first call: null buffer pointer, no lookups. -/
def PulseSite.init : PulseSite :=
  { acquired := false, last := 0, lookups := 0 }

/-- One LATTE_PULSE invocation reading timestamp now, acting on the site
state and on the ring buffer the cached pointer designates: first call
looks the buffer up and records the baseline only; later calls push
now - last with the PULSE key and refresh last. -/
def pulseCall (s : PulseSite) (buf : RingBuffer) (now : Nat) : PulseSite × RingBuffer :=
  if s.acquired = false then
    ({ acquired := true, last := now, lookups := s.lookups + 1 }, buf)
  else
    ({ acquired := true, last := now, lookups := s.lookups },
     buf.push (sub64 now s.last) CALIB_KEY_PULSE)

/-- A run of LATTE_PULSE calls at the given timestamps. -/
def pulseRun (s : PulseSite) (buf : RingBuffer) : List Nat → PulseSite × RingBuffer
  | [] => (s, buf)
  | t :: rest =>
    let sb := pulseCall s buf t
    pulseRun sb.1 sb.2 rest

/-- Consecutive-delta pushes: starting from baseline last, push t - last for
each timestamp t in order, threading last. This is the behaviour the spec
ascribes to the calls after the first. -/
def pushDeltas (buf : RingBuffer) (last : Nat) : List Nat → RingBuffer
  | [] => buf
  | t :: rest => pushDeltas (buf.push (sub64 t last) CALIB_KEY_PULSE) t rest

/-- The final element of a timestamp list, d for the empty list: the value
the site's last register holds after the run. -/
def lastD (d : Nat) : List Nat → Nat
  | [] => d
  | t :: rest => lastD t rest

/-- The Manager's calibration table: calib_offsets and calib_valid arrays
(indexed 0 .. CALIB_KEY_COUNT - 1, modelled as total functions). -/
structure CalibTable where
  calib_offsets : Nat → Nat
  calib_valid : Nat → Bool

/-- Manager::CalibrationOffset: 0 for keys at or above CALIB_KEY_COUNT
(this covers MIXED = 0xFE and UNSET = 0xFF), 0 for invalid entries,
otherwise the stored offset. -/
def CalibrationOffset (m : CalibTable) (key : Nat) : Nat :=
  if CALIB_KEY_COUNT ≤ key then 0
  else if m.calib_valid key = false then 0
  else m.calib_offsets key

/-- One step of the per-id calibration-key merge in DumpToStream:
UNSET takes the buffer's tag, a differing tag turns MIXED. -/
def mergeKey (acc k : Nat) : Nat :=
  if acc = CALIB_KEY_UNSET then k
  else if acc ≠ k then CALIB_KEY_MIXED
  else acc

/-- The effective calibration key of an id whose buffers carry the given
tags, in scan order, as DumpToStream folds them into the Series. -/
def mergeTags (tags : List Nat) : Nat :=
  tags.foldl mergeKey CALIB_KEY_UNSET

/-- The calibrated-mode sample adjustment in DumpToStream:
x = v - off; if (x < 0) x = 0. Sample values are doubles holding exact
integer cycle counts, modelled as rationals. -/
def calibAdjust (off : Nat) (v : ℚ) : ℚ :=
  if v - (off : ℚ) < 0 then 0 else v - (off : ℚ)

/-- Chunking helper with structural fuel so that it computes: splits a list
into consecutive chunks of n, the last chunk possibly shorter. -/
def chunksOfAux (n : Nat) : Nat → List α → List (List α)
  | _, [] => []
  | 0, _ :: _ => []
  | fuel + 1, x :: xs => (x :: xs).take n :: chunksOfAux n fuel ((x :: xs).drop n)

/-- The consecutive buckets of size n the source loops walk (i stepping by n). -/
def chunksOf (n : Nat) (l : List α) : List (List α) :=
  chunksOfAux n l.length l

/-- The canonical ascending reordering of a list; std::sort is modelled by
it since a sorted permutation of a list over a linear order is unique. -/
def sortLe [LinearOrder α] [DecidableEq α] (l : List α) : List α :=
  Multiset.sort (· ≤ ·) (l : Multiset α)

/-- A double sample value viewed inside the cutoff order (no sample reaches
the double maximum, which plays the top element). -/
def qtop (v : ℚ) : WithTop ℚ := (v : WithTop ℚ)

/-- Internal::CleanResult: sorted kept values, bypass count, and the cutoff.
The initial cutoff value, the double maximum, dominates every sample and is
modelled as the top element. -/
structure CleanResult where
  values : List ℚ
  bypass : Nat
  cutoff : WithTop ℚ

/-- The bucket-maxima pass of Internal::CleanData: walk buckets of 1000,
skip a bucket shorter than 500, record its max (accumulated from 0). -/
def bucketMaxes (values : List ℚ) : List ℚ :=
  (chunksOf 1000 values).filterMap fun b =>
    if b.length < 500 then none
    else some (b.foldl (fun m v => if m < v then v else m) 0)

/-- The cutoff block of Internal::CleanData. With at least 4 bucket maxima
the cutoff is q3 + 3*IQR over the sorted maxima (or 1.5*q3 when IQR = 0);
with 1 to 3 it is 1.5 times their max; with none it stays at the double
maximum (top). -/
def cleanCutoff (values : List ℚ) : WithTop ℚ :=
  let bm := bucketMaxes values
  if 4 ≤ bm.length then
    let s := sortLe bm
    let q1 := s.getD (s.length / 4) 0
    let q3 := s.getD (s.length * 3 / 4) 0
    if q3 - q1 = 0 then ((q3 * (3 / 2) : ℚ) : WithTop ℚ)
    else ((q3 + 3 * (q3 - q1) : ℚ) : WithTop ℚ)
  else
    match bm with
    | [] => ⊤
    | b :: bs => ((bs.foldl (fun m v => if m < v then v else m) b * (3 / 2) : ℚ) : WithTop ℚ)

/-- Internal::CleanData: values above the cutoff are counted as bypass, the
rest kept; an empty kept set reverts to the full input with bypass 0; the
kept set is sorted ascending. -/
def CleanData (values : List ℚ) : CleanResult :=
  if values = [] then { values := [], bypass := 0, cutoff := ⊤ }
  else
    let cutoff := cleanCutoff values
    let kept := values.filter fun v => !decide (cutoff < qtop v)
    if kept = [] then
      { values := sortLe values, bypass := 0, cutoff := cutoff }
    else
      { values := sortLe kept
        bypass := values.countP fun v => decide (cutoff < qtop v)
        cutoff := cutoff }

/-- std::min_element over a nonempty list (the empty case is unreachable in
the guarded source paths). -/
def minElem : List Nat → Nat
  | [] => 0
  | x :: xs => xs.foldl min x

/-- The per-bucket scan of the BUMED lambda: m starts at the uint64 maximum
and takes every positive v strictly below the current m. -/
def bucketMinSentinel (b : List Nat) : Nat :=
  b.foldl (fun m v => if 0 < v ∧ v < m then v else m) U64MAX

/-- The BUMED lambda of Manager::Calibrate: bucket the first
(size / 1000) * 1000 samples into buckets of 1000, take each bucket's
sentinel-guarded positive minimum, drop sentinel results, and return the
median of the collected minima (rounded-up integer average of the two
middle values when their count is even; the source widens to 128 bits
there, which Nat arithmetic subsumes); fall back to the global minimum
when no full bucket or no collected minimum exists. -/
def BUMED (raw : List Nat) : Nat :=
  if raw = [] then 0
  else
    let full := raw.length / 1000 * 1000
    if full = 0 then minElem raw
    else
      let mins := ((chunksOf 1000 (raw.take full)).map bucketMinSentinel).filter
        fun m => !decide (m = U64MAX)
      if mins = [] then minElem raw
      else
        let s := sortLe mins
        if s.length % 2 = 1 then s.getD (s.length / 2) 0
        else (s.getD (s.length / 2 - 1) 0 + s.getD (s.length / 2) 0 + 1) / 2

/-- Per the claim's words: the minimum of a bucket after filtering zeros,
none when nothing remains. -/
def specMinPos (b : List Nat) : Option Nat :=
  match b.filter fun v => decide (0 < v) with
  | [] => none
  | x :: xs => some (xs.foldl min x)

/-- Per the claim's words: the per-bucket minima over full buckets of 1000
consecutive samples, zeros filtered inside each bucket, short final bucket
dropped. -/
def specBucketMins (raw : List Nat) : List Nat :=
  (chunksOf 1000 (raw.take (raw.length / 1000 * 1000))).filterMap specMinPos

/-- Per the claim's words: the median of an ascending list, taking the
integer-rounded average of the two middle values for an even count. -/
def specMedianRounded (sorted : List Nat) : Nat :=
  if sorted.length % 2 = 1 then sorted.getD (sorted.length / 2) 0
  else (sorted.getD (sorted.length / 2 - 1) 0 + sorted.getD (sorted.length / 2) 0 + 1) / 2

/-- The concrete cleaner input of the upper-fence scenario: 999 samples of
10 us and one of 900 us, followed by 1000 further samples of 10 us. -/
def c4input : List ℚ :=
  List.replicate 999 10 ++ 900 :: List.replicate 1000 10

/-- A concrete calibration-sample vector: one bucket full of the uint64
maximum, one full of 5, one full of 7. -/
def c5input : List Nat :=
  List.replicate 1000 U64MAX ++ (List.replicate 1000 5 ++ List.replicate 1000 7)

/-- A concrete thread storage with one open scope whose start timestamp is 10. -/
def backTS : ThreadStorage :=
  { stack_ids := fun _ => 0
    stack_starts := fun _ => 10
    stack_modes := fun _ => 0
    stack_ptr := 1
    history := fun _ => RingBuffer.init }

/-- A concrete thread storage whose scope stack is full. -/
def fullTS : ThreadStorage :=
  { ThreadStorage.init with stack_ptr := MAX_ACTIVE_SLOTS }

theorem sortLe_perm [LinearOrder α] (l : List α) : (sortLe l).Perm l :=
  Multiset.coe_eq_coe.mp (Multiset.sort_eq _ _)

theorem sortLe_sorted [LinearOrder α] (l : List α) : (sortLe l).Sorted (· ≤ ·) :=
  Multiset.sort_sorted _ _

theorem sortLe_length [LinearOrder α] (l : List α) : (sortLe l).length = l.length :=
  (sortLe_perm l).length_eq

theorem sortLe_eq_of_sorted [LinearOrder α] (l : List α) (h : l.Sorted (· ≤ ·)) :
    sortLe l = l :=
  List.eq_of_perm_of_sorted (sortLe_perm l) (sortLe_sorted l) h

theorem pushN_head (vals keys : Nat → Nat) :
    ∀ n, (pushN vals keys n).head = n % MAX_SAMPLES := by
  intro n
  induction n with
  | zero => rfl
  | succ n ih =>
    show ((pushN vals keys n).push (vals n) (keys n)).head = (n + 1) % MAX_SAMPLES
    simp only [RingBuffer.push, ih]
    rw [Nat.mod_add_mod]

theorem pushN_data_iff (vals keys : Nat → Nat) (hv : ∀ k, vals k ≠ 0) :
    ∀ (n i : Nat), i < MAX_SAMPLES →
      ((pushN vals keys n).data i ≠ 0 ↔ i < n) := by
  have hC : MAX_SAMPLES = 65536 := by norm_num [MAX_SAMPLES, BUFFER_PWR]
  intro n i hi
  induction n with
  | zero => simp [pushN, RingBuffer.init]
  | succ n ih =>
    have hhead : (pushN vals keys n).head % MAX_SAMPLES = n % MAX_SAMPLES := by
      rw [pushN_head vals keys n]
      exact Nat.mod_mod_of_dvd n dvd_rfl
    show (Function.update (pushN vals keys n).data
      ((pushN vals keys n).head % MAX_SAMPLES) (vals n) i ≠ 0 ↔ i < n + 1)
    rw [Function.update_apply, hhead]
    split_ifs with hieq
    · rw [hC] at hieq
      constructor
      · intro _
        omega
      · intro _
        exact hv n
    · rw [ih]
      rw [hC] at hieq hi
      omega

theorem range_filter_lt_card (n : Nat) :
    ((Finset.range MAX_SAMPLES).filter fun i => i < n).card = min n MAX_SAMPLES := by
  have h : (Finset.range MAX_SAMPLES).filter (fun i => i < n)
      = Finset.range (min n MAX_SAMPLES) := by
    ext k
    simp only [Finset.mem_filter, Finset.mem_range, Nat.lt_min]
    tauto
  rw [h, Finset.card_range]

theorem nonzeroCount_pushN (vals keys : Nat → Nat) (hv : ∀ k, vals k ≠ 0) (n : Nat) :
    nonzeroCount (pushN vals keys n) = min n MAX_SAMPLES := by
  unfold nonzeroCount
  rw [Finset.filter_congr
    (fun i hi => pushN_data_iff vals keys hv n i (Finset.mem_range.mp hi))]
  exact range_filter_lt_card n

theorem runPairs_char (id M : Nat) (t0 t1 : Nat → Nat) :
    ∀ n, (runPairs id M t0 t1 n).stack_ptr = 0 ∧
      (runPairs id M t0 t1 n).history id
        = pushN (fun k => sub64 (t1 k) (t0 k)) (fun _ => CalibKey M M) n := by
  intro n
  induction n with
  | zero => exact ⟨rfl, rfl⟩
  | succ n ih =>
    obtain ⟨h1, h2⟩ := ih
    have hlt : (runPairs id M t0 t1 n).stack_ptr < MAX_ACTIVE_SLOTS := by
      rw [h1]; decide
    have hpos : 0 < (runPairs id M t0 t1 n).stack_ptr + 1 := Nat.succ_pos _
    constructor
    · show (Recorder.stop M (t1 n) (Recorder.start M id (t0 n) (runPairs id M t0 t1 n))).stack_ptr = 0
      simp only [Recorder.start, if_pos hlt, Recorder.stop, hpos, if_true,
        Nat.add_sub_cancel]
      exact h1
    · show (Recorder.stop M (t1 n) (Recorder.start M id (t0 n) (runPairs id M t0 t1 n))).history id
        = _
      simp only [Recorder.start, if_pos hlt, Recorder.stop, hpos, if_true,
        Nat.add_sub_cancel, Function.update_same]
      rw [h2]
      rfl

/-- C1: a single thread running N overflow-free Start/Stop pairs for one
id, every delta non-zero, leaves exactly min(N, 65536) non-zero slots in
the id's ring buffer and head = N mod 65536; for N = 100000 that is 65536
non-zero samples and head 34464. -/
theorem ring_after_pairs (N id M : Nat) (t0 t1 : Nat → Nat)
    (hv : ∀ k, sub64 (t1 k) (t0 k) ≠ 0) :
    nonzeroCount ((runPairs id M t0 t1 N).history id) = min N MAX_SAMPLES ∧
    ((runPairs id M t0 t1 N).history id).head = N % MAX_SAMPLES ∧
    (N = 100000 →
      nonzeroCount ((runPairs id M t0 t1 N).history id) = 65536 ∧
      ((runPairs id M t0 t1 N).history id).head = 34464) := by
  obtain ⟨h1, h2⟩ := runPairs_char id M t0 t1 N
  rw [h2]
  have hc := nonzeroCount_pushN (fun k => sub64 (t1 k) (t0 k)) (fun _ => CalibKey M M) hv N
  have hh := pushN_head (fun k => sub64 (t1 k) (t0 k)) (fun _ => CalibKey M M) N
  refine ⟨hc, hh, ?_⟩
  intro hN
  subst hN
  refine ⟨?_, ?_⟩
  · rw [hc]; norm_num [MAX_SAMPLES, BUFFER_PWR]
  · rw [hh]; norm_num [MAX_SAMPLES, BUFFER_PWR]

/-- Witness for ring_after_pairs with unit deltas and N = 100000. -/
theorem ring_after_pairs_witness :
    (∀ _k : Nat, sub64 1 0 ≠ 0) ∧
    (nonzeroCount ((runPairs 0 0 (fun _ => 0) (fun _ => 1) 100000).history 0)
        = min 100000 MAX_SAMPLES ∧
      ((runPairs 0 0 (fun _ => 0) (fun _ => 1) 100000).history 0).head
        = 100000 % MAX_SAMPLES ∧
      (100000 = 100000 →
        nonzeroCount ((runPairs 0 0 (fun _ => 0) (fun _ => 1) 100000).history 0) = 65536 ∧
        ((runPairs 0 0 (fun _ => 0) (fun _ => 1) 100000).history 0).head = 34464)) :=
  ⟨fun _ => by decide,
   ring_after_pairs 100000 0 0 (fun _ => 0) (fun _ => 1)
     (fun _ => show sub64 1 0 ≠ 0 by decide)⟩

/-- C6: in calibrated mode every reported sample equals
max(0, raw - offset), hence lies between 0 and the raw value; a raw sample
of 45 cycles under an offset of 60 cycles reports 0, never a negative. -/
theorem calibrated_clamp (off : Nat) (v : ℚ) (hv : 0 ≤ v) :
    calibAdjust off v = max 0 (v - (off : ℚ)) ∧
    0 ≤ calibAdjust off v ∧ calibAdjust off v ≤ v ∧
    calibAdjust 60 45 = 0 := by
  unfold calibAdjust
  refine ⟨?_, ?_, ?_, by norm_num⟩
  · split_ifs with h
    · exact (max_eq_left h.le).symm
    · exact (max_eq_right (not_lt.mp h)).symm
  · split_ifs with h
    · exact le_refl 0
    · exact not_lt.mp h
  · split_ifs with h
    · exact hv
    · have hc : (0 : ℚ) ≤ (off : ℚ) := Nat.cast_nonneg off
      linarith

/-- Witness for calibrated_clamp at off = 60, v = 45. -/
theorem calibrated_clamp_witness :
    (0 : ℚ) ≤ 45 ∧
    (calibAdjust 60 45 = max 0 ((45 : ℚ) - ((60 : Nat) : ℚ)) ∧
      0 ≤ calibAdjust 60 45 ∧ calibAdjust 60 45 ≤ 45 ∧ calibAdjust 60 45 = 0) :=
  ⟨by norm_num, calibrated_clamp 60 45 (by norm_num)⟩

/-- C7: a Start with mode s popped by a Stop with mode e pushes the sample
with calibration key 3*s + e (modes below 3), and a push moves the buffer
tag from UNSET to the pushed key, keeps an equal tag, and turns a
differing tag MIXED. -/
theorem calibkey_and_tag :
    (∀ s e : Nat, s < 3 → e < 3 → CalibKey s e = 3 * s + e) ∧
    (∀ (ts : ThreadStorage) (id t t2 s e : Nat), ts.stack_ptr < MAX_ACTIVE_SLOTS →
      (Recorder.stop e t2 (Recorder.start s id t ts)).history id
        = (ts.history id).push (sub64 t2 t) (CalibKey s e)) ∧
    (∀ (rb : RingBuffer) (v k : Nat),
      (rb.calib_key = CALIB_KEY_UNSET → (rb.push v k).calib_key = k) ∧
      (rb.calib_key = k → (rb.push v k).calib_key = k) ∧
      (rb.calib_key ≠ CALIB_KEY_UNSET → rb.calib_key ≠ k →
        (rb.push v k).calib_key = CALIB_KEY_MIXED)) := by
  refine ⟨?_, ?_, ?_⟩
  · intro s e hs he
    simp only [CalibKey, if_pos (And.intro hs he)]
    omega
  · intro ts id t t2 s e h
    have hpos : 0 < ts.stack_ptr + 1 := Nat.succ_pos _
    simp only [Recorder.start, if_pos h, Recorder.stop, hpos, if_true,
      Nat.add_sub_cancel, Function.update_same]
  · intro rb v k
    refine ⟨?_, ?_, ?_⟩
    · intro h1
      simp [RingBuffer.push, h1]
    · intro h1
      simp [RingBuffer.push, h1]
    · intro h1 h2
      simp [RingBuffer.push, h1, h2]

/-- Witness for calibkey_and_tag at concrete modes, state and buffer. -/
theorem calibkey_and_tag_witness :
    ((0 : Nat) < 3 ∧ (1 : Nat) < 3 ∧ ThreadStorage.init.stack_ptr < MAX_ACTIVE_SLOTS ∧
      RingBuffer.init.calib_key = CALIB_KEY_UNSET) ∧
    (CalibKey 0 1 = 3 * 0 + 1 ∧
      (Recorder.stop 1 8 (Recorder.start 0 5 3 ThreadStorage.init)).history 5
        = (ThreadStorage.init.history 5).push (sub64 8 3) (CalibKey 0 1) ∧
      (RingBuffer.init.push 7 4).calib_key = 4) :=
  ⟨⟨by decide, by decide, by decide, by decide⟩,
   calibkey_and_tag.1 0 1 (by decide) (by decide),
   calibkey_and_tag.2.1 ThreadStorage.init 5 3 8 0 1 (by decide),
   (calibkey_and_tag.2.2 RingBuffer.init 7 4).1 (by decide)⟩

/-- C2 counterexample: a Stop at t = 5 popping a scope started at t0 = 10
stores the wrapped uint64 delta 2^64 - 5, a non-zero value, in the ring
buffer; the delta is not coerced to 0 and the sample is not discarded. -/
theorem stop_backwards_counterexample :
    sub64 5 10 = 2 ^ 64 - 5 ∧ sub64 5 10 ≠ 0 ∧
    ((Recorder.stop 0 5 backTS).history 0).data 0 = 2 ^ 64 - 5 := by
  refine ⟨by decide, by decide, by decide⟩

/-- C2 amended: when the stop timestamp t is below the stored start t0,
the delta recorded is the uint64 wraparound 2^64 - (t0 - t), which is
non-zero, and the sample is pushed into the popped id's ring buffer. -/
theorem stop_backwards_amended (ts : ThreadStorage) (t e : Nat)
    (hp : 0 < ts.stack_ptr)
    (hlt : t < ts.stack_starts (ts.stack_ptr - 1))
    (hub : ts.stack_starts (ts.stack_ptr - 1) < UINT64_MOD) :
    sub64 t (ts.stack_starts (ts.stack_ptr - 1))
      = UINT64_MOD - (ts.stack_starts (ts.stack_ptr - 1) - t) ∧
    sub64 t (ts.stack_starts (ts.stack_ptr - 1)) ≠ 0 ∧
    (Recorder.stop e t ts).history (ts.stack_ids (ts.stack_ptr - 1)) =
      (ts.history (ts.stack_ids (ts.stack_ptr - 1))).push
        (sub64 t (ts.stack_starts (ts.stack_ptr - 1)))
        (CalibKey (ts.stack_modes (ts.stack_ptr - 1)) e) := by
  have h1 : sub64 t (ts.stack_starts (ts.stack_ptr - 1))
      = UINT64_MOD - (ts.stack_starts (ts.stack_ptr - 1) - t) := by
    unfold sub64
    rw [Nat.mod_eq_of_lt hub, Nat.mod_eq_of_lt (by omega)]
    omega
  refine ⟨h1, by rw [h1]; omega, ?_⟩
  simp only [Recorder.stop, if_pos hp, Function.update_same]

/-- Witness for stop_backwards_amended on the concrete state backTS. -/
theorem stop_backwards_amended_witness :
    (0 < backTS.stack_ptr ∧ 5 < backTS.stack_starts (backTS.stack_ptr - 1) ∧
      backTS.stack_starts (backTS.stack_ptr - 1) < UINT64_MOD) ∧
    (sub64 5 (backTS.stack_starts (backTS.stack_ptr - 1))
        = UINT64_MOD - (backTS.stack_starts (backTS.stack_ptr - 1) - 5) ∧
      sub64 5 (backTS.stack_starts (backTS.stack_ptr - 1)) ≠ 0 ∧
      (Recorder.stop 0 5 backTS).history (backTS.stack_ids (backTS.stack_ptr - 1)) =
        (backTS.history (backTS.stack_ids (backTS.stack_ptr - 1))).push
          (sub64 5 (backTS.stack_starts (backTS.stack_ptr - 1)))
          (CalibKey (backTS.stack_modes (backTS.stack_ptr - 1)) 0)) :=
  ⟨⟨by decide, by decide, by decide⟩,
   stop_backwards_amended backTS 5 0 (by decide) (by decide) (by decide)⟩

theorem applyOp_ptr_le (ts : ThreadStorage) (op : LOp)
    (h : ts.stack_ptr ≤ MAX_ACTIVE_SLOTS) :
    (applyOp ts op).stack_ptr ≤ MAX_ACTIVE_SLOTS := by
  cases op with
  | start id t M =>
    simp only [applyOp, Recorder.start]
    split_ifs with hlt
    · show ts.stack_ptr + 1 ≤ MAX_ACTIVE_SLOTS
      omega
    · exact h
  | stop t M =>
    simp only [applyOp, Recorder.stop]
    split_ifs with hlt
    · show ts.stack_ptr - 1 ≤ MAX_ACTIVE_SLOTS
      omega
    · exact h

theorem applyOps_ptr_le (ops : List LOp) :
    ∀ ts : ThreadStorage, ts.stack_ptr ≤ MAX_ACTIVE_SLOTS →
      (applyOps ts ops).stack_ptr ≤ MAX_ACTIVE_SLOTS := by
  induction ops with
  | nil => intro ts h; exact h
  | cons op rest ih =>
    intro ts h
    unfold applyOps
    rw [List.foldl_cons]
    exact ih (applyOp ts op) (applyOp_ptr_le ts op h)

theorem start_full_noop (ts : ThreadStorage) (id t M : Nat)
    (h : ts.stack_ptr = MAX_ACTIVE_SLOTS) :
    Recorder.start M id t ts = ts := by
  unfold Recorder.start
  rw [if_neg]
  omega

theorem applyOps_replicate_start (K id t M : Nat) :
    ∀ ts : ThreadStorage, ts.stack_ptr = MAX_ACTIVE_SLOTS →
      applyOps ts (List.replicate K (.start id t M)) = ts := by
  induction K with
  | zero => intro ts _; rfl
  | succ n ih =>
    intro ts h
    rw [List.replicate_succ]
    unfold applyOps
    rw [List.foldl_cons]
    have hop : applyOp ts (LOp.start id t M) = ts := start_full_noop ts id t M h
    rw [hop]
    exact ih ts h

theorem applyOps_replicate_stop (t M m : Nat) :
    ∀ ts : ThreadStorage, m ≤ ts.stack_ptr →
      (applyOps ts (List.replicate m (.stop t M))).stack_ptr = ts.stack_ptr - m := by
  induction m with
  | zero => intro ts _; simp [applyOps]
  | succ n ih =>
    intro ts h
    rw [List.replicate_succ]
    unfold applyOps
    rw [List.foldl_cons]
    have hpos : 0 < ts.stack_ptr := by omega
    have h1 : (applyOp ts (LOp.stop t M)).stack_ptr = ts.stack_ptr - 1 := by
      simp only [applyOp, Recorder.stop, if_pos hpos]
    have h2 := ih (applyOp ts (LOp.stop t M)) (by omega)
    unfold applyOps at h2
    rw [h2, h1]
    omega

/-- C8: under every sequence of Start and Stop calls the scope-stack top
stays at most MAX_ACTIVE_SLOTS = 64; and from a full stack, K overflowed
Start calls followed by m Stop calls with m at most 64 leave depth 64 - m. -/
theorem stack_depth_bounds :
    (∀ (ts : ThreadStorage) (ops : List LOp), ts.stack_ptr ≤ MAX_ACTIVE_SLOTS →
      (applyOps ts ops).stack_ptr ≤ MAX_ACTIVE_SLOTS) ∧
    (∀ (ts : ThreadStorage) (K m id t t2 M M2 : Nat),
      ts.stack_ptr = MAX_ACTIVE_SLOTS → m ≤ MAX_ACTIVE_SLOTS →
      (applyOps ts (List.replicate K (.start id t M) ++ List.replicate m (.stop t2 M2))).stack_ptr
        = MAX_ACTIVE_SLOTS - m) := by
  constructor
  · intro ts ops h
    exact applyOps_ptr_le ops ts h
  · intro ts K m id t t2 M M2 hfull hm
    unfold applyOps
    rw [List.foldl_append]
    have h1 := applyOps_replicate_start K id t M ts hfull
    unfold applyOps at h1
    rw [h1]
    have h2 := applyOps_replicate_stop t2 M2 m ts (by omega)
    unfold applyOps at h2
    rw [h2, hfull]

/-- Witness for stack_depth_bounds at a fresh storage and a full one. -/
theorem stack_depth_bounds_witness :
    (ThreadStorage.init.stack_ptr ≤ MAX_ACTIVE_SLOTS ∧
      fullTS.stack_ptr = MAX_ACTIVE_SLOTS ∧ (3 : Nat) ≤ MAX_ACTIVE_SLOTS) ∧
    ((applyOps ThreadStorage.init [LOp.start 1 2 0]).stack_ptr ≤ MAX_ACTIVE_SLOTS ∧
      (applyOps fullTS
        (List.replicate 2 (.start 1 2 0) ++ List.replicate 3 (.stop 7 0))).stack_ptr
        = MAX_ACTIVE_SLOTS - 3) :=
  ⟨⟨by decide, by decide, by decide⟩,
   stack_depth_bounds.1 ThreadStorage.init [LOp.start 1 2 0] (by decide),
   stack_depth_bounds.2 fullTS 2 3 1 2 7 0 0 (by decide) (by decide)⟩

theorem pulseRun_acquired (rest : List Nat) :
    ∀ (last lk : Nat) (buf : RingBuffer),
      pulseRun { acquired := true, last := last, lookups := lk } buf rest
        = ({ acquired := true, last := lastD last rest, lookups := lk },
           pushDeltas buf last rest) := by
  induction rest with
  | nil => intro last lk buf; rfl
  | cons t ys ih =>
    intro last lk buf
    rw [pulseRun]
    simp only [pulseCall]
    rw [if_neg (by simp)]
    exact ih t lk (buf.push (sub64 t last) CALIB_KEY_PULSE)

/-- C9: the first Pulse call on a site performs the single buffer lookup
and records the baseline timestamp but pushes no sample; every later call
pushes now - last with the PULSE key and sets last to now; the lookup
count stays 1 for the whole run. -/
theorem pulse_spec (t : Nat) (rest : List Nat) (buf : RingBuffer) :
    pulseRun PulseSite.init buf (t :: rest)
      = ({ acquired := true, last := lastD t rest, lookups := 1 },
         pushDeltas buf t rest) ∧
    pulseRun PulseSite.init buf [t]
      = ({ acquired := true, last := t, lookups := 1 }, buf) := by
  constructor
  · rw [pulseRun]
    simp only [pulseCall, PulseSite.init, if_true]
    exact pulseRun_acquired rest t 1 buf
  · rw [pulseRun]
    simp only [pulseCall, PulseSite.init, if_true]
    exact pulseRun_acquired [] t 1 buf

theorem chunksOfAux_congr (n : Nat) (hn : 0 < n) :
    ∀ (f1 : Nat) (l : List α), l.length ≤ f1 → ∀ f2, l.length ≤ f2 →
      chunksOfAux n f1 l = chunksOfAux n f2 l := by
  intro f1
  induction f1 with
  | zero =>
    intro l hl f2 _
    have hnil : l = [] := List.length_eq_zero.mp (Nat.le_zero.mp hl)
    subst hnil
    cases f2 <;> rfl
  | succ f ih =>
    intro l hl f2 hl2
    cases l with
    | nil => cases f2 <;> rfl
    | cons x xs =>
      cases f2 with
      | zero => simp at hl2
      | succ g =>
        show (x :: xs).take n :: chunksOfAux n f ((x :: xs).drop n)
            = (x :: xs).take n :: chunksOfAux n g ((x :: xs).drop n)
        congr 1
        simp only [List.length_cons] at hl hl2
        have hlen1 : ((x :: xs).drop n).length ≤ f := by
          rw [List.length_drop, List.length_cons]
          omega
        have hlen2 : ((x :: xs).drop n).length ≤ g := by
          rw [List.length_drop, List.length_cons]
          omega
        exact ih _ hlen1 g hlen2

theorem chunksOf_ne_nil (n : Nat) (hn : 0 < n) (x : α) (xs : List α) :
    chunksOf n (x :: xs) = (x :: xs).take n :: chunksOf n ((x :: xs).drop n) := by
  show (x :: xs).take n :: chunksOfAux n xs.length ((x :: xs).drop n)
      = (x :: xs).take n :: chunksOf n ((x :: xs).drop n)
  congr 1
  apply chunksOfAux_congr n hn
  · rw [List.length_drop]
    simp only [List.length_cons]
    omega
  · exact le_refl _

theorem chunksOf_cons_chunk (n : Nat) (hn : 0 < n) (c rest : List α)
    (hc : c.length = n) (hne : c ≠ []) :
    chunksOf n (c ++ rest) = c :: chunksOf n rest := by
  subst hc
  match c, hne with
  | x :: xs, _ =>
    rw [List.cons_append, chunksOf_ne_nil _ hn, ← List.cons_append,
      List.take_left, List.drop_left]

theorem chunksOf_last_chunk (n : Nat) (hn : 0 < n) (c : List α)
    (hne : c ≠ []) (hlen : c.length ≤ n) :
    chunksOf n c = [c] := by
  match c, hne with
  | x :: xs, _ =>
    rw [chunksOf_ne_nil _ hn, List.take_of_length_le hlen,
      List.drop_eq_nil_of_le hlen]
    rfl

theorem foldl_qmax_replicate (b : ℚ) (n : Nat) :
    ∀ a : ℚ, (List.replicate n b).foldl (fun m v => if m < v then v else m) a
      = if n = 0 then a else max a b := by
  induction n with
  | zero => intro a; simp
  | succ m ih =>
    intro a
    rw [List.replicate_succ]
    simp only [List.foldl_cons]
    rw [ih]
    have hacc : (if a < b then b else a) = max a b := by
      split_ifs with h
      · exact (max_eq_right h.le).symm
      · exact (max_eq_left (not_lt.mp h)).symm
    rw [hacc, if_neg (Nat.succ_ne_zero m), max_assoc, max_self, ite_self]

theorem keep_pred_eq (c : WithTop ℚ) (v : ℚ) :
    (!decide (c < qtop v)) = decide (qtop v ≤ c) := by
  by_cases h : qtop v ≤ c
  · simp [h, not_lt.mpr h]
  · simp [h, not_le.mp h]

theorem c4_split :
    c4input = (List.replicate 999 (10 : ℚ) ++ [900]) ++ List.replicate 1000 10 := by
  unfold c4input
  rw [List.append_assoc]
  rfl

theorem c4_chunk1_len : (List.replicate 999 (10 : ℚ) ++ [900]).length = 1000 := by
  rw [List.length_append, List.length_replicate, List.length_singleton]

theorem c4_chunks : chunksOf 1000 c4input
    = [List.replicate 999 (10 : ℚ) ++ [900], List.replicate 1000 (10 : ℚ)] := by
  rw [c4_split,
    chunksOf_cons_chunk 1000 (by norm_num) _ _ c4_chunk1_len
      (List.length_pos.mp (by rw [c4_chunk1_len]; norm_num)),
    chunksOf_last_chunk 1000 (by norm_num) _
      (List.length_pos.mp (by rw [List.length_replicate]; norm_num))
      (by rw [List.length_replicate])]

theorem c4_b1 :
    (List.replicate 999 (10 : ℚ) ++ [900]).foldl (fun m v => if m < v then v else m) 0
      = 900 := by
  rw [List.foldl_append, foldl_qmax_replicate, if_neg (by norm_num : ¬(999 = 0)),
    show (max 0 10 : ℚ) = 10 from max_eq_right (by norm_num)]
  simp only [List.foldl_cons, List.foldl_nil]
  rw [if_pos (by norm_num : (10 : ℚ) < 900)]

theorem c4_b2 :
    (List.replicate 1000 (10 : ℚ)).foldl (fun m v => if m < v then v else m) 0 = 10 := by
  rw [foldl_qmax_replicate, if_neg (by norm_num : ¬(1000 = 0)),
    show (max 0 10 : ℚ) = 10 from max_eq_right (by norm_num)]

theorem c4_bucketMaxes : bucketMaxes c4input = [900, 10] := by
  unfold bucketMaxes
  rw [c4_chunks]
  have h1 : (if (List.replicate 999 (10 : ℚ) ++ [900]).length < 500 then (none : Option ℚ)
      else some ((List.replicate 999 (10 : ℚ) ++ [900]).foldl
        (fun m v => if m < v then v else m) 0)) = some 900 := by
    rw [if_neg (by rw [c4_chunk1_len]; norm_num), c4_b1]
  have h2 : (if (List.replicate 1000 (10 : ℚ)).length < 500 then (none : Option ℚ)
      else some ((List.replicate 1000 (10 : ℚ)).foldl
        (fun m v => if m < v then v else m) 0)) = some 10 := by
    rw [if_neg (by rw [List.length_replicate]; norm_num), c4_b2]
  simp only [List.filterMap_cons, List.filterMap_nil, h1, h2]

theorem c4_cutoff : cleanCutoff c4input = ((1350 : ℚ) : WithTop ℚ) := by
  simp only [cleanCutoff, c4_bucketMaxes]
  rw [if_neg (by norm_num)]
  show ((([10] : List ℚ).foldl (fun m v => if m < v then v else m) 900 * (3 / 2) : ℚ)
      : WithTop ℚ) = _
  rw [show ([10] : List ℚ).foldl (fun m v => if m < v then v else m) 900 = 900 by
    simp only [List.foldl_cons, List.foldl_nil]
    rw [if_neg (by norm_num)]]
  rw [show (900 * (3 / 2) : ℚ) = 1350 by norm_num]

theorem c4_mem (v : ℚ) (hv : v ∈ c4input) : v = 10 ∨ v = 900 := by
  unfold c4input at hv
  rcases List.mem_append.mp hv with h | h
  · exact Or.inl (List.eq_of_mem_replicate h)
  · rcases List.mem_cons.mp h with h2 | h2
    · exact Or.inr h2
    · exact Or.inl (List.eq_of_mem_replicate h2)

theorem c4_keep_all :
    c4input.filter (fun v => !decide (cleanCutoff c4input < qtop v)) = c4input := by
  apply List.filter_eq_self.mpr
  intro a ha
  have hle : qtop a ≤ cleanCutoff c4input := by
    rw [c4_cutoff]
    rcases c4_mem a ha with h | h <;> subst h <;>
      exact WithTop.coe_le_coe.mpr (by norm_num)
  rw [keep_pred_eq]
  exact decide_eq_true hle

theorem c4_count0 :
    (c4input.countP fun v => decide (cleanCutoff c4input < qtop v)) = 0 := by
  apply List.countP_eq_zero.mpr
  intro a ha
  simp only [decide_eq_true_eq]
  rw [c4_cutoff]
  rcases c4_mem a ha with h | h <;> subst h <;>
    exact not_lt.mpr (WithTop.coe_le_coe.mpr (by norm_num))

theorem c4_len : c4input.length = 2000 := by
  rw [c4_split, List.length_append, List.length_append, List.length_replicate,
    List.length_replicate, List.length_singleton]

theorem c4_ne : c4input ≠ [] :=
  List.length_pos.mp (by rw [c4_len]; norm_num)

theorem cleanData_cutoff_eq (values : List ℚ) (hE : values ≠ []) :
    (CleanData values).cutoff = cleanCutoff values := by
  simp only [CleanData, if_neg hE, apply_ite CleanResult.cutoff, ite_self]

theorem cleanData_keep_all (values : List ℚ) (hE : values ≠ [])
    (hall : values.filter (fun v => !decide (cleanCutoff values < qtop v)) = values) :
    (CleanData values).bypass
        = values.countP (fun v => decide (cleanCutoff values < qtop v)) ∧
    (CleanData values).values = sortLe values := by
  constructor
  · simp only [CleanData, if_neg hE, apply_ite CleanResult.bypass]
    rw [hall, if_neg hE]
  · simp only [CleanData, if_neg hE, apply_ite CleanResult.values]
    rw [hall, ite_self]

theorem c4_eval : (CleanData c4input).cutoff = ((1350 : ℚ) : WithTop ℚ) ∧
    (CleanData c4input).bypass = 0 ∧ (CleanData c4input).values.length = 2000 := by
  obtain ⟨h2, h3⟩ := cleanData_keep_all c4input c4_ne c4_keep_all
  exact ⟨(cleanData_cutoff_eq c4input c4_ne).trans c4_cutoff,
    h2.trans c4_count0, by rw [h3, sortLe_length, c4_len]⟩

/-- C4 counterexample: on 999 samples of 10, one of 900 and 1000 further
samples of 10, the cleaner reports bypass 0 and keeps all 2000 values (the
cutoff 1.5 * 900 = 1350 retains the 900 sample), refuting the expected
bypass = 1 and output length 1999. -/
theorem cleaner_upper_fence_counterexample :
    (CleanData c4input).bypass = 0 ∧ (CleanData c4input).values.length = 2000 ∧
    ¬((CleanData c4input).bypass = 1 ∧ (CleanData c4input).values.length = 1999) := by
  obtain ⟨_, h2, h3⟩ := c4_eval
  refine ⟨h2, h3, ?_⟩
  intro hcl
  rcases hcl with ⟨ha, _⟩
  rw [h2] at ha
  exact absurd ha (by decide)

/-- C4 amended: for the concrete input of 999 samples of 10 us, one of
900 us and 1000 further samples of 10 us, the 1-to-3-bucket rule gives
cutoff 1.5 * 900 = 1350 us, so the 900 us sample is kept: bypass = 0 and
the output holds all 2000 values. -/
theorem cleaner_upper_fence_amended :
    (CleanData c4input).cutoff = ((1350 : ℚ) : WithTop ℚ) ∧
    (CleanData c4input).bypass = 0 ∧
    (CleanData c4input).values.length = 2000 :=
  c4_eval

theorem bmin_step_eq (m v : Nat) :
    (if 0 < v ∧ v < m then v else m) = if 0 < v then min m v else m := by
  by_cases h : 0 < v
  · by_cases h2 : v < m
    · rw [if_pos ⟨h, h2⟩, if_pos h, min_eq_right h2.le]
    · rw [if_neg (fun hc => h2 hc.2), if_pos h, min_eq_left (not_lt.mp h2)]
  · rw [if_neg (fun hc => h hc.1), if_neg h]

theorem foldl_bmin_eq_filter (b : List Nat) : ∀ acc : Nat,
    b.foldl (fun m v => if 0 < v ∧ v < m then v else m) acc
      = (b.filter fun v => decide (0 < v)).foldl min acc := by
  induction b with
  | nil => intro acc; rfl
  | cons x xs ih =>
    intro acc
    rw [List.foldl_cons]
    by_cases h : 0 < x
    · rw [@List.filter_cons_of_pos _ (fun v => decide (0 < v)) x xs (by simpa using h),
        List.foldl_cons]
      rw [show (if 0 < x ∧ x < acc then x else acc) = min acc x from
        (bmin_step_eq acc x).trans (if_pos h)]
      exact ih (min acc x)
    · rw [List.filter_cons_of_neg (by simpa using h)]
      rw [show (if 0 < x ∧ x < acc then x else acc) = acc from
        (bmin_step_eq acc x).trans (if_neg h)]
      exact ih acc

theorem foldl_min_le (xs : List Nat) : ∀ acc, xs.foldl min acc ≤ acc := by
  induction xs with
  | nil => intro acc; exact le_refl _
  | cons x ys ih =>
    intro acc
    rw [List.foldl_cons]
    exact (ih _).trans (min_le_left _ _)

theorem foldl_min_mem (xs : List Nat) :
    ∀ acc, xs.foldl min acc = acc ∨ xs.foldl min acc ∈ xs := by
  induction xs with
  | nil => intro acc; exact Or.inl rfl
  | cons x ys ih =>
    intro acc
    rw [List.foldl_cons]
    rcases ih (min acc x) with h | h
    · rcases min_choice acc x with hm | hm
      · exact Or.inl (h.trans hm)
      · exact Or.inr (by rw [h, hm]; exact List.mem_cons_self _ _)
    · exact Or.inr (List.mem_cons_of_mem _ h)

theorem foldl_min_replicate (b : Nat) (n : Nat) :
    ∀ a : Nat, (List.replicate n b).foldl min a = if n = 0 then a else min a b := by
  induction n with
  | zero => intro a; simp
  | succ m ih =>
    intro a
    rw [List.replicate_succ, List.foldl_cons, ih,
      if_neg (Nat.succ_ne_zero m), min_assoc, min_self, ite_self]

theorem bucketMinSentinel_spec (b : List Nat) (hb : ∀ v ∈ b, v < U64MAX) :
    (bucketMinSentinel b = U64MAX ∧ specMinPos b = none) ∨
    (bucketMinSentinel b ≠ U64MAX ∧ specMinPos b = some (bucketMinSentinel b)) := by
  unfold bucketMinSentinel specMinPos
  rw [foldl_bmin_eq_filter]
  cases hP : b.filter (fun v => decide (0 < v)) with
  | nil => exact Or.inl ⟨rfl, rfl⟩
  | cons x xs =>
    right
    have hx : x ∈ b := List.mem_of_mem_filter (hP ▸ List.mem_cons_self x xs)
    have hxU : x < U64MAX := hb x hx
    rw [List.foldl_cons, min_eq_right hxU.le]
    constructor
    · intro hEq
      have := foldl_min_le xs x
      omega
    · rfl

theorem codeMins_eq_spec (bs : List (List Nat))
    (hb : ∀ b ∈ bs, ∀ v ∈ b, v < U64MAX) :
    (bs.map bucketMinSentinel).filter (fun m => !decide (m = U64MAX))
      = bs.filterMap specMinPos := by
  induction bs with
  | nil => rfl
  | cons b rest ih =>
    rw [List.map_cons]
    rcases bucketMinSentinel_spec b (hb b (List.mem_cons_self _ _)) with ⟨hM, hS⟩ | ⟨hM, hS⟩
    · rw [List.filter_cons_of_neg (by simp [hM]), List.filterMap_cons_none hS]
      exact ih fun b2 h2 v hv => hb b2 (List.mem_cons_of_mem _ h2) v hv
    · rw [List.filter_cons_of_pos (by simp [hM]), List.filterMap_cons_some hS]
      rw [ih fun b2 h2 v hv => hb b2 (List.mem_cons_of_mem _ h2) v hv]

theorem chunksOfAux_subset (n : Nat) :
    ∀ (fuel : Nat) (l : List α) (b : List α), b ∈ chunksOfAux n fuel l →
      ∀ v ∈ b, v ∈ l := by
  intro fuel
  induction fuel with
  | zero =>
    intro l b hb
    cases l <;> simp [chunksOfAux] at hb
  | succ f ih =>
    intro l b hb
    cases l with
    | nil => simp [chunksOfAux] at hb
    | cons x xs =>
      rcases List.mem_cons.mp hb with h | h
      · subst h
        exact fun v hv => List.take_subset _ _ hv
      · exact fun v hv => List.drop_subset _ _ (ih _ b h v hv)

theorem chunksOf_subset (n : Nat) (l : List α) (b : List α)
    (hb : b ∈ chunksOf n l) : ∀ v ∈ b, v ∈ l :=
  chunksOfAux_subset n l.length l b hb

theorem getD_mem_or (l : List Nat) : ∀ i, l.getD i 0 ∈ l ∨ l.getD i 0 = 0 := by
  induction l with
  | nil => intro i; right; cases i <;> rfl
  | cons x xs ih =>
    intro i
    cases i with
    | zero => left; exact List.mem_cons_self _ _
    | succ j =>
      rw [List.getD_cons_succ]
      rcases ih j with h | h
      · exact Or.inl (List.mem_cons_of_mem _ h)
      · exact Or.inr h

theorem minElem_mem (l : List Nat) (h : l ≠ []) : minElem l ∈ l := by
  match l, h with
  | x :: xs, _ =>
    show xs.foldl min x ∈ x :: xs
    rcases foldl_min_mem xs x with h2 | h2
    · rw [h2]; exact List.mem_cons_self _ _
    · exact List.mem_cons_of_mem _ h2

theorem specBucketMins_sub (raw : List Nat) :
    ∀ v ∈ specBucketMins raw, v ∈ raw := by
  intro v hv
  unfold specBucketMins at hv
  rcases List.mem_filterMap.mp hv with ⟨b, hb, hfb⟩
  have hsub : ∀ x ∈ b, x ∈ raw :=
    fun x hx => List.take_subset _ _ (chunksOf_subset _ _ b hb x hx)
  unfold specMinPos at hfb
  cases hP : b.filter (fun v => decide (0 < v)) with
  | nil => rw [hP] at hfb; simp at hfb
  | cons x xs =>
    rw [hP] at hfb
    have heq : xs.foldl min x = v := by simpa using hfb
    have hmem : v ∈ x :: xs := by
      rcases foldl_min_mem xs x with h | h
      · rw [← heq, h]; exact List.mem_cons_self _ _
      · rw [← heq]; exact List.mem_cons_of_mem _ h
    exact hsub v (List.mem_of_mem_filter (hP ▸ hmem))

theorem bumed_char (raw : List Nat) (hraw : raw ≠ [])
    (hbound : ∀ v ∈ raw, v < U64MAX) :
    BUMED raw = (if specBucketMins raw = [] then minElem raw
        else specMedianRounded (sortLe (specBucketMins raw))) := by
  have hmins : ((chunksOf 1000 (raw.take (raw.length / 1000 * 1000))).map
      bucketMinSentinel).filter (fun m => !decide (m = U64MAX))
        = specBucketMins raw := by
    unfold specBucketMins
    exact codeMins_eq_spec _
      fun b hb v hv => hbound v (List.take_subset _ _ (chunksOf_subset _ _ b hb v hv))
  rw [BUMED, if_neg hraw]
  dsimp only
  by_cases hfull : raw.length / 1000 * 1000 = 0
  · rw [if_pos hfull]
    have hspec : specBucketMins raw = [] := by
      unfold specBucketMins
      rw [hfull, List.take_zero]
      rfl
    rw [hspec, if_pos rfl]
  · rw [if_neg hfull, hmins]
    by_cases hm : specBucketMins raw = []
    · rw [if_pos hm, if_pos hm]
    · rw [if_neg hm, if_neg hm]
      rfl

theorem bumed_lt (raw : List Nat) (hraw : raw ≠ [])
    (hbound : ∀ v ∈ raw, v < U64MAX) :
    BUMED raw < UINT64_MOD := by
  have hU : U64MAX + 1 = UINT64_MOD := by norm_num [U64MAX, UINT64_MOD]
  have h0 : 0 < U64MAX := by norm_num [U64MAX]
  rw [bumed_char raw hraw hbound]
  split_ifs with hm
  · have := hbound _ (minElem_mem raw hraw)
    omega
  · have hD : ∀ i, (sortLe (specBucketMins raw)).getD i 0 < U64MAX := by
      intro i
      rcases getD_mem_or (sortLe (specBucketMins raw)) i with h | h
      · exact hbound _ (specBucketMins_sub raw _ ((sortLe_perm _).subset h))
      · rw [h]; exact h0
    unfold specMedianRounded
    split_ifs with hp
    · have := hD ((sortLe (specBucketMins raw)).length / 2)
      omega
    · have h1 := hD ((sortLe (specBucketMins raw)).length / 2 - 1)
      have h2 := hD ((sortLe (specBucketMins raw)).length / 2)
      omega

/-- C5 amended: for every non-empty sample vector whose samples are all
below the uint64 maximum (the sentinel the bucket scan uses), BUMED is the
median of per-bucket minima over full buckets of 1000 (zeros filtered,
short final bucket dropped, rounded-up integer average of the two middle
values for an even count), or the global minimum when no bucket minimum
exists; the result always fits in a uint64 (the wider arithmetic cannot
overflow). -/
theorem bumed_spec (raw : List Nat) (hraw : raw ≠ [])
    (hbound : ∀ v ∈ raw, v < U64MAX) :
    BUMED raw = (if specBucketMins raw = [] then minElem raw
        else specMedianRounded (sortLe (specBucketMins raw))) ∧
    BUMED raw < UINT64_MOD :=
  ⟨bumed_char raw hraw hbound, bumed_lt raw hraw hbound⟩

theorem c5_len : c5input.length = 3000 := by
  unfold c5input
  rw [List.length_append, List.length_append, List.length_replicate,
    List.length_replicate, List.length_replicate]

theorem c5_ne : c5input ≠ [] :=
  List.length_pos.mp (by rw [c5_len]; norm_num)

theorem c5_chunks : chunksOf 1000 c5input
    = [List.replicate 1000 U64MAX, List.replicate 1000 5, List.replicate 1000 7] := by
  unfold c5input
  rw [chunksOf_cons_chunk 1000 (by norm_num) _ _ (by rw [List.length_replicate])
      (List.length_pos.mp (by rw [List.length_replicate]; norm_num)),
    chunksOf_cons_chunk 1000 (by norm_num) _ _ (by rw [List.length_replicate])
      (List.length_pos.mp (by rw [List.length_replicate]; norm_num)),
    chunksOf_last_chunk 1000 (by norm_num) _
      (List.length_pos.mp (by rw [List.length_replicate]; norm_num))
      (by rw [List.length_replicate])]

theorem c5_b1 : bucketMinSentinel (List.replicate 1000 U64MAX) = U64MAX := by
  unfold bucketMinSentinel
  rw [foldl_bmin_eq_filter, List.filter_replicate, if_pos (by decide),
    foldl_min_replicate, if_neg (by norm_num), min_self]

theorem c5_b2 : bucketMinSentinel (List.replicate 1000 5) = 5 := by
  unfold bucketMinSentinel
  rw [foldl_bmin_eq_filter, List.filter_replicate, if_pos (by decide),
    foldl_min_replicate, if_neg (by norm_num)]
  exact min_eq_right (by norm_num [U64MAX])

theorem c5_b3 : bucketMinSentinel (List.replicate 1000 7) = 7 := by
  unfold bucketMinSentinel
  rw [foldl_bmin_eq_filter, List.filter_replicate, if_pos (by decide),
    foldl_min_replicate, if_neg (by norm_num)]
  exact min_eq_right (by norm_num [U64MAX])

theorem c5_s1 : specMinPos (List.replicate 1000 U64MAX) = some U64MAX := by
  unfold specMinPos
  rw [List.filter_replicate, if_pos (by decide),
    show List.replicate 1000 U64MAX = U64MAX :: List.replicate 999 U64MAX from rfl]
  show some ((List.replicate 999 U64MAX).foldl min U64MAX) = some U64MAX
  rw [foldl_min_replicate, if_neg (by norm_num), min_self]

theorem c5_s2 : specMinPos (List.replicate 1000 5) = some 5 := by
  unfold specMinPos
  rw [List.filter_replicate, if_pos (by decide),
    show List.replicate 1000 (5 : Nat) = 5 :: List.replicate 999 5 from rfl]
  show some ((List.replicate 999 (5 : Nat)).foldl min 5) = some 5
  rw [foldl_min_replicate, if_neg (by norm_num), min_self]

theorem c5_s3 : specMinPos (List.replicate 1000 7) = some 7 := by
  unfold specMinPos
  rw [List.filter_replicate, if_pos (by decide),
    show List.replicate 1000 (7 : Nat) = 7 :: List.replicate 999 7 from rfl]
  show some ((List.replicate 999 (7 : Nat)).foldl min 7) = some 7
  rw [foldl_min_replicate, if_neg (by norm_num), min_self]

theorem c5_mins : specBucketMins c5input = [U64MAX, 5, 7] := by
  unfold specBucketMins
  rw [c5_len, show (3000 : Nat) / 1000 * 1000 = 3000 from by norm_num,
    List.take_of_length_le (le_of_eq c5_len), c5_chunks,
    List.filterMap_cons_some c5_s1, List.filterMap_cons_some c5_s2,
    List.filterMap_cons_some c5_s3, List.filterMap_nil]

theorem c5_bumed : BUMED c5input = 6 := by
  rw [BUMED, if_neg c5_ne]
  dsimp only
  rw [c5_len, show (3000 : Nat) / 1000 * 1000 = 3000 from by norm_num,
    if_neg (by norm_num : ¬(3000 = 0)),
    List.take_of_length_le (le_of_eq c5_len), c5_chunks,
    List.map_cons, List.map_cons, List.map_cons, List.map_nil, c5_b1, c5_b2, c5_b3,
    show ([U64MAX, 5, 7] : List Nat).filter (fun m => !decide (m = U64MAX)) = [5, 7]
      from by decide,
    if_neg (by decide : ¬(([5, 7] : List Nat) = [])),
    sortLe_eq_of_sorted _ (by decide : ([5, 7] : List Nat).Sorted (· ≤ ·))]
  decide

theorem c5_specmed : specMedianRounded (sortLe (specBucketMins c5input)) = 7 := by
  rw [c5_mins,
    show sortLe ([U64MAX, 5, 7] : List Nat) = [5, 7, U64MAX] from
      List.eq_of_perm_of_sorted
        ((sortLe_perm _).trans (List.perm_append_singleton U64MAX [5, 7]).symm)
        (sortLe_sorted _) (by decide)]
  decide

/-- C5 counterexample: on one bucket full of samples equal to the uint64
maximum, one full of 5 and one full of 7, the bucket scan drops the first
bucket (its samples collide with the sentinel), so BUMED returns
(5 + 7 + 1) / 2 = 6, while the median of per-bucket minima with only zeros
filtered is 7. -/
theorem bumed_counterexample :
    BUMED c5input = 6 ∧
    specMedianRounded (sortLe (specBucketMins c5input)) = 7 ∧
    BUMED c5input ≠ specMedianRounded (sortLe (specBucketMins c5input)) := by
  refine ⟨c5_bumed, c5_specmed, ?_⟩
  rw [c5_bumed, c5_specmed]
  decide

/-- Witness for bumed_spec on the one-sample vector. -/
theorem bumed_spec_witness :
    (([5] : List Nat) ≠ [] ∧ (∀ v ∈ ([5] : List Nat), v < U64MAX)) ∧
    (BUMED [5] = (if specBucketMins [5] = [] then minElem [5]
        else specMedianRounded (sortLe (specBucketMins [5]))) ∧
      BUMED [5] < UINT64_MOD) :=
  ⟨⟨by decide, by decide⟩, bumed_spec [5] (by decide) (by decide)⟩

/-- C3: the cleaner keeps exactly the input values at or below the computed
cutoff, sorted ascending, with bypass equal to input length minus output
length; when that filter would be empty the output is the full sorted input
(and then bypass is 0, as the length equation forces). -/
theorem cleanData_spec (values : List ℚ) :
    (CleanData values).values.Sorted (· ≤ ·) ∧
    (CleanData values).bypass = values.length - (CleanData values).values.length ∧
    (CleanData values).values.Perm
      (if values.filter (fun v => decide (qtop v ≤ (CleanData values).cutoff)) = []
       then values
       else values.filter fun v => decide (qtop v ≤ (CleanData values).cutoff)) := by
  by_cases hE : values = []
  · subst hE
    refine ⟨by simp [CleanData], by simp [CleanData], by simp [CleanData]⟩
  · have hcut : (CleanData values).cutoff = cleanCutoff values := by
      simp only [CleanData, if_neg hE, apply_ite CleanResult.cutoff, ite_self]
    have hfe : values.filter (fun v => decide (qtop v ≤ (CleanData values).cutoff))
        = values.filter (fun v => !decide (cleanCutoff values < qtop v)) := by
      rw [hcut]
      exact List.filter_congr fun a _ => (keep_pred_eq (cleanCutoff values) a).symm
    by_cases hK : values.filter (fun v => !decide (cleanCutoff values < qtop v)) = []
    · have hcd : CleanData values
          = { values := sortLe values, bypass := 0, cutoff := cleanCutoff values } := by
        simp only [CleanData, if_neg hE]
        rw [if_pos hK]
      refine ⟨?_, ?_, ?_⟩
      · rw [hcd]
        exact sortLe_sorted values
      · rw [hcd]
        show 0 = values.length - (sortLe values).length
        rw [sortLe_length]
        omega
      · rw [hfe, hcd, if_pos hK]
        exact sortLe_perm values
    · have hcd : CleanData values
          = { values := sortLe (values.filter fun v => !decide (cleanCutoff values < qtop v))
              bypass := values.countP fun v => decide (cleanCutoff values < qtop v)
              cutoff := cleanCutoff values } := by
        simp only [CleanData, if_neg hE]
        rw [if_neg hK]
      rw [hfe, hcd]
      rw [if_neg hK]
      refine ⟨sortLe_sorted _, ?_, sortLe_perm _⟩
      show values.countP (fun v => decide (cleanCutoff values < qtop v))
          = values.length - (sortLe (values.filter fun v => !decide (cleanCutoff values < qtop v))).length
      rw [sortLe_length]
      have hlen : (values.filter fun v => !decide (cleanCutoff values < qtop v)).length
          = values.countP fun v => !decide (cleanCutoff values < qtop v) :=
        (List.countP_eq_length_filter _ _).symm
      have htot := List.length_eq_countP_add_countP
        (fun v => decide (cleanCutoff values < qtop v)) (l := values)
      have hpq : ∀ a : ℚ,
          (decide (¬decide (cleanCutoff values < qtop a) = true))
            = !decide (cleanCutoff values < qtop a) := by
        intro a
        by_cases h : cleanCutoff values < qtop a <;> simp [h]
      simp only [hpq] at htot
      rw [hlen]
      omega

theorem foldl_mergeKey_unset_all (l : List Nat)
    (h : ∀ x ∈ l, x = CALIB_KEY_UNSET) :
    l.foldl mergeKey CALIB_KEY_UNSET = CALIB_KEY_UNSET := by
  induction l with
  | nil => rfl
  | cons x xs ih =>
    rw [List.foldl_cons, show mergeKey CALIB_KEY_UNSET x = CALIB_KEY_UNSET by
      rw [h x (List.mem_cons_self x xs)]; simp [mergeKey]]
    exact ih fun y hy => h y (List.mem_cons_of_mem _ hy)

theorem foldl_mergeKey_ne_unset (l : List Nat) :
    ∀ acc : Nat, acc ≠ CALIB_KEY_UNSET →
      l.foldl mergeKey acc
        = if ∀ x ∈ l, x = acc then acc else CALIB_KEY_MIXED := by
  induction l with
  | nil => intro acc _; simp
  | cons x xs ih =>
    intro acc h
    rw [List.foldl_cons]
    by_cases hx : x = acc
    · subst hx
      rw [show mergeKey x x = x by simp [mergeKey, h]]
      rw [ih x h]
      have hiff : (∀ y ∈ x :: xs, y = x) ↔ (∀ y ∈ xs, y = x) := by simp
      rw [if_congr hiff rfl rfl]
    · rw [show mergeKey acc x = CALIB_KEY_MIXED by
        simp only [mergeKey, if_neg h]; rw [if_pos (Ne.symm hx)]]
      rw [ih CALIB_KEY_MIXED (by decide), ite_self]
      rw [if_neg fun hall => hx (hall x (List.mem_cons_self x xs))]

/-- C10 counterexample: two buffers for one id tagged UNSET and 9 (the
first acquired by Pulse but never pushed) merge to effective key 9, not
MIXED, although they do not carry the same tag. -/
theorem merge_key_counterexample :
    mergeTags [CALIB_KEY_UNSET, 9] = 9 ∧
    CALIB_KEY_UNSET ≠ 9 ∧ (9 : Nat) ≠ CALIB_KEY_MIXED := by
  refine ⟨by decide, by decide, by decide⟩

/-- C10 amended: when every contributing buffer carries the same tag the
merged key is that tag; when the first tag is not UNSET and some tag
differs the merged key is MIXED (a leading UNSET tag is instead absorbed);
CalibrationOffset yields 0 for MIXED, UNSET and every out-of-range key, so
calibrated mode subtracts nothing from such an id's samples. -/
theorem merge_key_amended :
    (∀ (tags : List Nat) (u : Nat), tags ≠ [] → (∀ x ∈ tags, x = u) →
      mergeTags tags = u) ∧
    (∀ (u : Nat) (rest : List Nat), u ≠ CALIB_KEY_UNSET → ¬(∀ x ∈ rest, x = u) →
      mergeTags (u :: rest) = CALIB_KEY_MIXED) ∧
    (∀ (m : CalibTable) (k : Nat),
      k = CALIB_KEY_MIXED ∨ k = CALIB_KEY_UNSET ∨ CALIB_KEY_COUNT ≤ k →
      CalibrationOffset m k = 0) ∧
    (∀ (m : CalibTable) (v : ℚ), 0 ≤ v →
      calibAdjust (CalibrationOffset m CALIB_KEY_MIXED) v = v) := by
  refine ⟨?_, ?_, ?_, ?_⟩
  · intro tags u hne hall
    match tags with
    | t :: rest =>
      have ht : t = u := hall t (List.mem_cons_self _ _)
      subst ht
      unfold mergeTags
      rw [List.foldl_cons, show mergeKey CALIB_KEY_UNSET t = t by simp [mergeKey]]
      by_cases hu : t = CALIB_KEY_UNSET
      · subst hu
        exact foldl_mergeKey_unset_all rest fun y hy => hall y (List.mem_cons_of_mem _ hy)
      · rw [foldl_mergeKey_ne_unset rest t hu,
          if_pos fun y hy => hall y (List.mem_cons_of_mem _ hy)]
  · intro u rest hu hnall
    unfold mergeTags
    rw [List.foldl_cons, show mergeKey CALIB_KEY_UNSET u = u by simp [mergeKey],
      foldl_mergeKey_ne_unset rest u hu, if_neg hnall]
  · intro m k hk
    unfold CalibrationOffset
    rcases hk with h | h | h
    · subst h; rw [if_pos (by decide)]
    · subst h; rw [if_pos (by decide)]
    · rw [if_pos h]
  · intro m v hv
    have h0 : CalibrationOffset m CALIB_KEY_MIXED = 0 := by
      unfold CalibrationOffset
      rw [if_pos (by decide)]
    rw [h0]
    unfold calibAdjust
    rw [Nat.cast_zero, sub_zero, if_neg (not_lt.mpr hv)]

/-- Witness for merge_key_amended at concrete tags, table and sample. -/
theorem merge_key_amended_witness :
    (([7, 7] : List Nat) ≠ [] ∧ (∀ x ∈ ([7, 7] : List Nat), x = 7) ∧
      (7 : Nat) ≠ CALIB_KEY_UNSET ∧ ¬(∀ x ∈ ([9] : List Nat), x = 7) ∧
      ((254 : Nat) = CALIB_KEY_MIXED ∨ (254 : Nat) = CALIB_KEY_UNSET ∨
        CALIB_KEY_COUNT ≤ 254) ∧
      (0 : ℚ) ≤ 5) ∧
    (mergeTags [7, 7] = 7 ∧
      mergeTags (7 :: [9]) = CALIB_KEY_MIXED ∧
      CalibrationOffset ⟨fun _ => 3, fun _ => true⟩ 254 = 0 ∧
      calibAdjust (CalibrationOffset ⟨fun _ => 3, fun _ => true⟩ CALIB_KEY_MIXED) 5 = 5) :=
  ⟨⟨by decide, by decide, by decide, by decide, by decide, by norm_num⟩,
   merge_key_amended.1 [7, 7] 7 (by decide) (by decide),
   merge_key_amended.2.1 7 [9] (by decide) (by decide),
   merge_key_amended.2.2.1 ⟨fun _ => 3, fun _ => true⟩ 254 (by decide),
   merge_key_amended.2.2.2 ⟨fun _ => 3, fun _ => true⟩ 5 (by norm_num)⟩

end Latte
